import Mathlib

/-!
Shallow embedding of the relation-based access-control engine of
go-tangra-paperless (`internal/authz/engine.go`), together with theorems
about its permission-check algorithm.

Modelling conventions:
* Go `context.Context` and I/O failure of the two ports are modelled by the
  port operations returning `Except Unit`.
* `time.Time` values are modelled as `Nat` instants; `time.Now()` becomes an
  explicit `now : Nat` argument threaded into the check.
* The `GetCategoryParentID` port is modelled as a finite table (association
  list keyed by tenant id and category id), matching a finite backing store;
  ids absent from the table have no parent.  This makes the upward hierarchy
  walk a function on finite data, so its termination can be stated.
* Go maps used only as sets (`visited`, `accessibleIDs`, the permission set)
  are modelled as duplicate-free lists; the theorems about them are stated
  set-wise (membership), which is all the Go code guarantees since Go map
  iteration order is unspecified.
-/

namespace Paperless

/-- Resource types of the authz model (`ResourceType`). -/
inductive ResourceType where
  | document
  | category
deriving DecidableEq, Repr

/-- Subject types of the authz model (`SubjectType`). -/
inductive SubjectType where
  | user
  | role
  | tenant
deriving DecidableEq, Repr

/-- Relations of the authz model (`Relation`); `unspecified` is the zero value. -/
inductive Relation where
  | unspecified
  | viewer
  | editor
  | sharer
  | owner
deriving DecidableEq, Repr

/-- Permissions of the authz model (`Permission`). -/
inductive Permission where
  | read
  | write
  | delete
  | share
  | download
deriving DecidableEq, Repr

/-- Modelled from the spec: the static grants table (relation to permission
set) behind `RelationGrantsPermission`, whose defining Go file is not in the
sources (only its call sites in `engine.go` are): Owner grants everything;
Editor grants Read, Write, Download; Viewer grants Read, Download; Sharer
grants Read, Share, Download; Unspecified grants nothing. -/
def RelationGrantsPermission : Relation → Permission → Bool
  | Relation.owner, _ => true
  | Relation.editor, Permission.read => true
  | Relation.editor, Permission.write => true
  | Relation.editor, Permission.download => true
  | Relation.viewer, Permission.read => true
  | Relation.viewer, Permission.download => true
  | Relation.sharer, Permission.read => true
  | Relation.sharer, Permission.share => true
  | Relation.sharer, Permission.download => true
  | _, _ => false

/-- Numeric rank of a relation under the spec ordering
Owner > Editor > Sharer > Viewer > Unspecified. -/
def relationRank : Relation → Nat
  | Relation.unspecified => 0
  | Relation.viewer => 1
  | Relation.sharer => 2
  | Relation.editor => 3
  | Relation.owner => 4

/-- Modelled from the spec: `IsRelationAtLeast a b` holds when `a` is ranked
at least as high as `b` under Owner > Editor > Sharer > Viewer > Unspecified;
its defining Go file is not in the sources (only its call site in
`GetEffectivePermissions` is). -/
def IsRelationAtLeast (a b : Relation) : Bool :=
  relationRank b ≤ relationRank a

/-- A permission tuple (`PermissionTuple` in `engine.go`). -/
structure PermissionTuple where
  id : Nat
  tenantID : Nat
  resourceType : ResourceType
  resourceID : String
  relation : Relation
  subjectType : SubjectType
  subjectID : String
  grantedBy : Option Nat
  expiresAt : Option Nat
  createTime : Nat
deriving DecidableEq, Repr

/-- The `PermissionStore` port, restricted to the operations the checked
claims exercise (`HasPermission`, `ListResourcesBySubject`). -/
structure PermissionStore where
  hasPermission : Nat → ResourceType → String → SubjectType → String →
    Except Unit (Option PermissionTuple)
  listResourcesBySubject : Nat → SubjectType → String → ResourceType →
    Except Unit (List String)

/-- The `ResourceLookup` port.  `GetCategoryParentID` is backed by a finite
table keyed by (tenant id, category id); the other two operations are
arbitrary functions since the engine calls each at most once per check. -/
structure ResourceLookup where
  categoryParent : List ((Nat × String) × Except Unit (Option String))
  getDocumentCategoryID : Nat → String → Except Unit (Option String)
  getUserRoleIDs : Nat → String → Except Unit (List String)

/-- `ResourceLookup.GetCategoryParentID`: look up the parent of a category in
the finite table; a category absent from the table has no parent. -/
def ResourceLookup.getCategoryParentID (l : ResourceLookup) (tenantID : Nat)
    (categoryID : String) : Except Unit (Option String) :=
  match l.categoryParent.find? (fun kv => kv.1.1 == tenantID && kv.1.2 == categoryID) with
  | some kv => kv.2
  | none => Except.ok none

/-- The authorization engine (`Engine`): the two injected ports.  The logger
carried by the Go struct has no observable effect on results and is omitted. -/
structure Engine where
  store : PermissionStore
  lookup : ResourceLookup

/-- Inputs of a permission check (`CheckContext`). -/
structure CheckContext where
  tenantID : Nat
  userID : String
  resourceType : ResourceType
  resourceID : String
  permission : Permission
deriving DecidableEq, Repr

/-- Result of a permission check (`CheckResult`). -/
structure CheckResult where
  allowed : Bool
  relation : Option Relation
  reason : String
deriving DecidableEq, Repr

/-- `Engine.checkDirectPermission`: fetch the single matching tuple via
`HasPermission` and decide whether it grants the requested permission. -/
def Engine.checkDirectPermission (e : Engine) (now : Nat) (check : CheckContext)
    (subjectType : SubjectType) (subjectID : String) : CheckResult :=
  match e.store.hasPermission check.tenantID check.resourceType check.resourceID
      subjectType subjectID with
  | Except.error _ => ⟨false, none, "error checking permission"⟩
  | Except.ok none => ⟨false, none, "no direct permission"⟩
  | Except.ok (some tuple) =>
    match tuple.expiresAt with
    | some expiry =>
      if expiry < now then ⟨false, none, "permission expired"⟩
      else if RelationGrantsPermission tuple.relation check.permission then
        ⟨true, some tuple.relation, "direct permission"⟩
      else ⟨false, none, "relation does not grant permission"⟩
    | none =>
      if RelationGrantsPermission tuple.relation check.permission then
        ⟨true, some tuple.relation, "direct permission"⟩
      else ⟨false, none, "relation does not grant permission"⟩

/-- The role loop of `Engine.Check` step 2 (and of each hierarchy level):
the first allowing direct check among the given role ids, if any. -/
def Engine.checkRolePermissions (e : Engine) (now : Nat) (check : CheckContext) :
    List String → Option CheckResult
  | [] => none
  | roleID :: rest =>
    let result := e.checkDirectPermission now check SubjectType.role roleID
    if result.allowed then some result else e.checkRolePermissions now check rest

/-- The role ids `Engine.Check` works with: a failed `GetUserRoleIDs` lookup
leaves the Go `roleIDs` slice nil, i.e. the empty list. -/
def Engine.roleIDsOf (e : Engine) (tenantID : Nat) (userID : String) : List String :=
  match e.lookup.getUserRoleIDs tenantID userID with
  | Except.error _ => []
  | Except.ok ids => ids

/-- The category ids that occur as keys of the parent table; the hierarchy
walk can only step upward from one of these. -/
def ResourceLookup.catKeys (l : ResourceLookup) : List String :=
  l.categoryParent.map (fun kv => kv.1.2)

/-- The number of parent-table keys not yet visited; the measure the
hierarchy walk strictly decreases when it steps to the next parent. -/
def ResourceLookup.freshKeyCount (l : ResourceLookup) (visited : List String) : Nat :=
  (l.catKeys.filter (fun k => !(visited.contains k))).length

/-- The `CheckContext` the hierarchy walk builds for an ancestor category:
same tenant, user and permission, resource replaced by the category. -/
def levelCheck (check : CheckContext) (categoryID : String) : CheckContext :=
  { tenantID := check.tenantID
    userID := check.userID
    resourceType := ResourceType.category
    resourceID := categoryID
    permission := check.permission }

/-- The body of one hierarchy-walk iteration before the parent step: check
user, roles and tenant on the ancestor category; an allowing result is
returned with its reason rewritten to the inheritance wording, `none` means
this level denied and the walk moves on. -/
def Engine.levelResult (e : Engine) (now : Nat) (check : CheckContext)
    (roleIDs : List String) (categoryID : String) : Option CheckResult :=
  let categoryCheck := levelCheck check categoryID
  let userResult := e.checkDirectPermission now categoryCheck SubjectType.user check.userID
  if userResult.allowed then
    some { userResult with reason := "inherited from parent category" }
  else
    match e.checkRolePermissions now categoryCheck roleIDs with
    | some roleResult =>
      some { roleResult with reason := "inherited from parent category via role" }
    | none =>
      let tenantResult := e.checkDirectPermission now categoryCheck SubjectType.tenant "all"
      if tenantResult.allowed then
        some { tenantResult with reason := "inherited from parent category via tenant" }
      else none

/-- The loop of `Engine.checkHierarchy`, written as structural recursion on
a fuel argument: stop if the category was already visited (cycle defense);
otherwise check user, roles and tenant on the category; else step to the
category's parent.  A failed or absent parent lookup ends the walk with the
accumulated denial.  The fuel branch is unreachable for fuel larger than the
number of parent-table keys not yet visited (`hierarchyWalk_fuel_congr`
below), and it returns the same denial every loop exit returns, so the
function computes exactly the Go loop. -/
def Engine.hierarchyWalk (e : Engine) (now : Nat) (check : CheckContext)
    (roleIDs : List String) : Nat → String → List String → CheckResult
  | 0, _, _ => ⟨false, none, "no inherited permission"⟩
  | fuel + 1, categoryID, visited =>
    if visited.contains categoryID then ⟨false, none, "no inherited permission"⟩
    else
      match e.levelResult now check roleIDs categoryID with
      | some result => result
      | none =>
        match e.lookup.getCategoryParentID check.tenantID categoryID with
        | Except.error _ => ⟨false, none, "no inherited permission"⟩
        | Except.ok none => ⟨false, none, "no inherited permission"⟩
        | Except.ok (some nextParent) =>
          e.hierarchyWalk now check roleIDs fuel nextParent (categoryID :: visited)

/-- `Engine.checkHierarchy`: resolve the immediate parent category of the
target resource (owning category of a document, parent of a category), then
walk upward.  The walk is started with enough fuel that the fuel bound is
never the reason it stops. -/
def Engine.checkHierarchy (e : Engine) (now : Nat) (check : CheckContext)
    (roleIDs : List String) : CheckResult :=
  match check.resourceType with
  | ResourceType.document =>
    match e.lookup.getDocumentCategoryID check.tenantID check.resourceID with
    | Except.error _ => ⟨false, none, "error getting document category"⟩
    | Except.ok none => ⟨false, none, "no inherited permission"⟩
    | Except.ok (some categoryID) =>
      e.hierarchyWalk now check roleIDs (e.lookup.catKeys.length + 1) categoryID []
  | ResourceType.category =>
    match e.lookup.getCategoryParentID check.tenantID check.resourceID with
    | Except.error _ => ⟨false, none, "error getting category parent"⟩
    | Except.ok none => ⟨false, none, "no inherited permission"⟩
    | Except.ok (some categoryID) =>
      e.hierarchyWalk now check roleIDs (e.lookup.catKeys.length + 1) categoryID []

/-- `Engine.Check`: direct user tuple, then each role id in lookup order,
then the tenant wildcard subject "all", then hierarchy inheritance; the
first allowing result wins, otherwise a denial with reason
"no permission found". -/
def Engine.Check (e : Engine) (now : Nat) (check : CheckContext) : CheckResult :=
  let userResult := e.checkDirectPermission now check SubjectType.user check.userID
  if userResult.allowed then userResult
  else
    let roleIDs := e.roleIDsOf check.tenantID check.userID
    match e.checkRolePermissions now check roleIDs with
    | some roleResult => roleResult
    | none =>
      let tenantResult := e.checkDirectPermission now check SubjectType.tenant "all"
      if tenantResult.allowed then tenantResult
      else
        let hierarchyResult := e.checkHierarchy now check roleIDs
        if hierarchyResult.allowed then hierarchyResult
        else ⟨false, none, "no permission found"⟩

/-- Insertion into the accumulator modelling the Go `accessibleIDs` set:
append the id unless already present, keeping the list duplicate-free. -/
def insertUnique (acc : List String) (id : String) : List String :=
  if id ∈ acc then acc else acc ++ [id]

/-- The per-role iteration of `ListAccessibleResources`: a failing per-role
listing is skipped (`continue`), a successful one is folded into the set. -/
def Engine.roleListStep (e : Engine) (tenantID : Nat) (resourceType : ResourceType)
    (acc : List String) (roleID : String) : List String :=
  match e.store.listResourcesBySubject tenantID SubjectType.role roleID resourceType with
  | Except.error _ => acc
  | Except.ok roleResources => roleResources.foldl insertUnique acc

/-- `Engine.ListAccessibleResources`: union (as a duplicate-free list) of the
resources the store lists for the user, for each of the user's roles, and
for the tenant wildcard.  A failing user-direct listing is a hard failure; a
failing role lookup means no roles; a failing per-role or tenant listing is
skipped.  The requested permission is never consulted. -/
def Engine.ListAccessibleResources (e : Engine) (tenantID : Nat) (userID : String)
    (resourceType : ResourceType) (permission : Permission) :
    Except Unit (List String) :=
  match e.store.listResourcesBySubject tenantID SubjectType.user userID resourceType with
  | Except.error er => Except.error er
  | Except.ok userResources =>
    let acc := userResources.foldl insertUnique []
    let roleIDs := e.roleIDsOf tenantID userID
    let acc := roleIDs.foldl (e.roleListStep tenantID resourceType) acc
    let acc :=
      match e.store.listResourcesBySubject tenantID SubjectType.tenant "all" resourceType with
      | Except.error _ => acc
      | Except.ok tenantResources => tenantResources.foldl insertUnique acc
    Except.ok acc

/-- The fixed order in which `GetEffectivePermissions` probes permissions. -/
def allPermissions : List Permission :=
  [Permission.read, Permission.write, Permission.delete,
   Permission.share, Permission.download]

/-- One iteration of the `GetEffectivePermissions` loop: run `Check` for one
permission; if allowed, record the permission and, when a relation is
reported, fold it into the running highest relation. -/
def Engine.effectiveStep (e : Engine) (now : Nat) (check : CheckContext)
    (acc : List Permission × Relation) (perm : Permission) :
    List Permission × Relation :=
  let result := e.Check now { check with permission := perm }
  if result.allowed then
    let perms := acc.1 ++ [perm]
    match result.relation with
    | some r => (perms, if IsRelationAtLeast r acc.2 then r else acc.2)
    | none => (perms, acc.2)
  else acc

/-- `Engine.GetEffectivePermissions`: probe each permission in the fixed
order, collecting the allowed ones and the highest reported relation,
starting from the zero relation `unspecified`. -/
def Engine.GetEffectivePermissions (e : Engine) (now : Nat) (check : CheckContext) :
    List Permission × Relation :=
  allPermissions.foldl (e.effectiveStep now check) ([], Relation.unspecified)

/-- Spec wording: the body of `Check` after the single role lookup, with the
role ids an explicit argument; `Check` equals this applied to the once
computed `roleIDsOf`, which is how "role ids are computed once and reused at
every level" is visible in a pure model. -/
def Engine.CheckWithRoles (e : Engine) (now : Nat) (check : CheckContext)
    (roleIDs : List String) : CheckResult :=
  let userResult := e.checkDirectPermission now check SubjectType.user check.userID
  if userResult.allowed then userResult
  else
    match e.checkRolePermissions now check roleIDs with
    | some roleResult => roleResult
    | none =>
      let tenantResult := e.checkDirectPermission now check SubjectType.tenant "all"
      if tenantResult.allowed then tenantResult
      else
        let hierarchyResult := e.checkHierarchy now check roleIDs
        if hierarchyResult.allowed then hierarchyResult
        else ⟨false, none, "no permission found"⟩

/-- Spec wording: the evaluation of `Check` from step 2 on — roles, tenant
wildcard, hierarchy, final denial — with no user-direct branch; used to
state that a store error on the user-direct check does not prevent the
remaining branches from being evaluated. -/
def Engine.checkFromRoles (e : Engine) (now : Nat) (check : CheckContext)
    (roleIDs : List String) : CheckResult :=
  match e.checkRolePermissions now check roleIDs with
  | some roleResult => roleResult
  | none =>
    let tenantResult := e.checkDirectPermission now check SubjectType.tenant "all"
    if tenantResult.allowed then tenantResult
    else
      let hierarchyResult := e.checkHierarchy now check roleIDs
      if hierarchyResult.allowed then hierarchyResult
      else ⟨false, none, "no permission found"⟩

/-- Spec wording: the first allowing result in a list of candidates, or the
fallback when none allows. -/
def firstAllowing : List CheckResult → CheckResult → CheckResult
  | [], fallback => fallback
  | r :: rest, fallback => if r.allowed then r else firstAllowing rest fallback

/-- Spec wording: the ordered candidate results of `Check` — direct user
tuple, one direct tuple per role id in lookup order, the tenant wildcard
tuple, then hierarchy inheritance. -/
def Engine.checkCandidates (e : Engine) (now : Nat) (check : CheckContext) :
    List CheckResult :=
  let roleIDs := e.roleIDsOf check.tenantID check.userID
  e.checkDirectPermission now check SubjectType.user check.userID ::
    (roleIDs.map (fun roleID => e.checkDirectPermission now check SubjectType.role roleID) ++
      [e.checkDirectPermission now check SubjectType.tenant "all",
       e.checkHierarchy now check roleIDs])

/-- The relations reported by the allowing checks of
`GetEffectivePermissions` over the given permissions, in probe order. -/
def Engine.reportedRelations (e : Engine) (now : Nat) (check : CheckContext)
    (perms : List Permission) : List Relation :=
  perms.filterMap (fun p =>
    let result := e.Check now { check with permission := p }
    if result.allowed then result.relation else none)

/-- The running-maximum step of `GetEffectivePermissions`: keep the new
relation when it ranks at least as high as the current one. -/
def maxRelation (h r : Relation) : Relation :=
  if IsRelationAtLeast r h then r else h

/-! Concrete engines used by the example theorems and witnesses. -/

/-- A store holding no tuples and listing no resources. -/
def noStore : PermissionStore :=
  ⟨fun _ _ _ _ _ => Except.ok none, fun _ _ _ _ => Except.ok []⟩

/-- A lookup with no hierarchy and no roles. -/
def emptyLookup : ResourceLookup :=
  ⟨[], fun _ _ => Except.ok none, fun _ _ => Except.ok []⟩

/-- An unexpiring Owner tuple on a category for the given subject. -/
def ownerTupleOn (rid : String) (st : SubjectType) (sid : String) : PermissionTuple :=
  ⟨1, 1, ResourceType.category, rid, Relation.owner, st, sid, none, none, 0⟩

/-- An engine with no tuples at all. -/
def emptyEngine : Engine :=
  ⟨noStore, emptyLookup⟩

/-- A corrupted hierarchy: `parent(C1) = C2` and `parent(C2) = C1`, no tuple
anywhere. -/
def cyclicEngine : Engine where
  store := noStore
  lookup :=
    { categoryParent := [((1, "C1"), Except.ok (some "C2")),
                         ((1, "C2"), Except.ok (some "C1"))]
      getDocumentCategoryID := fun _ _ => Except.ok none
      getUserRoleIDs := fun _ _ => Except.ok [] }

/-- The check of the cycle-safety example: user U reading category C1. -/
def cyclicCheck : CheckContext :=
  ⟨1, "U", ResourceType.category, "C1", Permission.read⟩

/-- Inheritance example: user U holds Owner on category C1, C2's parent is
C1, document D lives in C2, and nothing else. -/
def inheritEngineA : Engine where
  store :=
    { hasPermission := fun tid rt rid st sid =>
        if tid == 1 && rt == ResourceType.category && rid == "C1" &&
            st == SubjectType.user && sid == "U" then
          Except.ok (some (ownerTupleOn "C1" SubjectType.user "U"))
        else Except.ok none
      listResourcesBySubject := fun _ _ _ _ => Except.ok [] }
  lookup :=
    { categoryParent := [((1, "C2"), Except.ok (some "C1"))]
      getDocumentCategoryID := fun tid did =>
        if tid == 1 && did == "D" then Except.ok (some "C2") else Except.ok none
      getUserRoleIDs := fun _ _ => Except.ok [] }

/-- Role variant of the inheritance example: the Owner tuple on C1 is held
by role R1, and user U holds role R1. -/
def inheritEngineB : Engine where
  store :=
    { hasPermission := fun tid rt rid st sid =>
        if tid == 1 && rt == ResourceType.category && rid == "C1" &&
            st == SubjectType.role && sid == "R1" then
          Except.ok (some (ownerTupleOn "C1" SubjectType.role "R1"))
        else Except.ok none
      listResourcesBySubject := fun _ _ _ _ => Except.ok [] }
  lookup :=
    { categoryParent := [((1, "C2"), Except.ok (some "C1"))]
      getDocumentCategoryID := fun tid did =>
        if tid == 1 && did == "D" then Except.ok (some "C2") else Except.ok none
      getUserRoleIDs := fun tid uid =>
        if tid == 1 && uid == "U" then Except.ok ["R1"] else Except.ok [] }

/-- Tenant variant of the inheritance example: the Owner tuple on C1 is the
tenant wildcard subject "all". -/
def inheritEngineC : Engine where
  store :=
    { hasPermission := fun tid rt rid st sid =>
        if tid == 1 && rt == ResourceType.category && rid == "C1" &&
            st == SubjectType.tenant && sid == "all" then
          Except.ok (some (ownerTupleOn "C1" SubjectType.tenant "all"))
        else Except.ok none
      listResourcesBySubject := fun _ _ _ _ => Except.ok [] }
  lookup :=
    { categoryParent := [((1, "C2"), Except.ok (some "C1"))]
      getDocumentCategoryID := fun tid did =>
        if tid == 1 && did == "D" then Except.ok (some "C2") else Except.ok none
      getUserRoleIDs := fun _ _ => Except.ok [] }

/-- Two-level variant: the role tuple sits on the grandparent category C0,
so the role ids computed before the walk are used at the second ancestor
level. -/
def inheritEngineD : Engine where
  store :=
    { hasPermission := fun tid rt rid st sid =>
        if tid == 1 && rt == ResourceType.category && rid == "C0" &&
            st == SubjectType.role && sid == "R1" then
          Except.ok (some (ownerTupleOn "C0" SubjectType.role "R1"))
        else Except.ok none
      listResourcesBySubject := fun _ _ _ _ => Except.ok [] }
  lookup :=
    { categoryParent := [((1, "C2"), Except.ok (some "C1")),
                         ((1, "C1"), Except.ok (some "C0"))]
      getDocumentCategoryID := fun tid did =>
        if tid == 1 && did == "D" then Except.ok (some "C2") else Except.ok none
      getUserRoleIDs := fun tid uid =>
        if tid == 1 && uid == "U" then Except.ok ["R1"] else Except.ok [] }

/-- The check of the inheritance examples: user U reading document D. -/
def inheritCheck : CheckContext :=
  ⟨1, "U", ResourceType.document, "D", Permission.read⟩

/-- An engine holding one Owner tuple on document X for user U that expired
at instant 5. -/
def expiredEngine : Engine where
  store :=
    { hasPermission := fun tid rt rid st sid =>
        if tid == 1 && rt == ResourceType.document && rid == "X" &&
            st == SubjectType.user && sid == "U" then
          Except.ok (some ⟨1, 1, ResourceType.document, "X", Relation.owner,
            SubjectType.user, "U", none, some 5, 0⟩)
        else Except.ok none
      listResourcesBySubject := fun _ _ _ _ => Except.ok [] }
  lookup := emptyLookup

/-- The check of the expiry example: user U reading document X. -/
def expiredCheck : CheckContext :=
  ⟨1, "U", ResourceType.document, "X", Permission.read⟩

/-- An engine whose store errors on every user-subject query, while role R1
(held by user U) has an Owner tuple on document X. -/
def errUserEngine : Engine where
  store :=
    { hasPermission := fun tid rt rid st sid =>
        if st == SubjectType.user then Except.error ()
        else if tid == 1 && rt == ResourceType.document && rid == "X" &&
            st == SubjectType.role && sid == "R1" then
          Except.ok (some ⟨1, 1, ResourceType.document, "X", Relation.owner,
            SubjectType.role, "R1", none, none, 0⟩)
        else Except.ok none
      listResourcesBySubject := fun _ _ _ _ => Except.ok [] }
  lookup :=
    { categoryParent := []
      getDocumentCategoryID := fun _ _ => Except.ok none
      getUserRoleIDs := fun tid uid =>
        if tid == 1 && uid == "U" then Except.ok ["R1"] else Except.ok [] }

/-- An engine, all of whose port operations fail — the behaviour under a
cancelled or deadline-exceeded context. -/
def allErrEngine : Engine where
  store :=
    { hasPermission := fun _ _ _ _ _ => Except.error ()
      listResourcesBySubject := fun _ _ _ _ => Except.error () }
  lookup :=
    { categoryParent := [((1, "X"), Except.error ())]
      getDocumentCategoryID := fun _ _ => Except.error ()
      getUserRoleIDs := fun _ _ => Except.error () }

/-- The check run against `allErrEngine`: user U reading category X. -/
def allErrCheck : CheckContext :=
  ⟨1, "U", ResourceType.category, "X", Permission.read⟩

/-- The check run against `errUserEngine`: user U reading document X. -/
def errCheck : CheckContext :=
  ⟨1, "U", ResourceType.document, "X", Permission.read⟩

/-- The check of the effective-permissions example: user U on document X,
with the permission field varied by `GetEffectivePermissions` itself. -/
def effCheck : CheckContext :=
  ⟨1, "U", ResourceType.document, "X", Permission.read⟩

/-- An engine holding one Editor tuple on document X for user U. -/
def effEngine : Engine where
  store :=
    { hasPermission := fun tid rt rid st sid =>
        if tid == 1 && rt == ResourceType.document && rid == "X" &&
            st == SubjectType.user && sid == "U" then
          Except.ok (some ⟨1, 1, ResourceType.document, "X", Relation.editor,
            SubjectType.user, "U", none, none, 0⟩)
        else Except.ok none
      listResourcesBySubject := fun _ _ _ _ => Except.ok [] }
  lookup := emptyLookup

/-- An engine whose store lists document R1 (and Rd) for user U directly,
R2 (and Rd) for role RO held by U, and R3 for the tenant wildcard. -/
def listEngine : Engine where
  store :=
    { hasPermission := fun _ _ _ _ _ => Except.ok none
      listResourcesBySubject := fun _ st sid _ =>
        if st == SubjectType.user && sid == "U" then Except.ok ["R1", "Rd"]
        else if st == SubjectType.role && sid == "RO" then Except.ok ["R2", "Rd"]
        else if st == SubjectType.tenant && sid == "all" then Except.ok ["R3"]
        else Except.ok [] }
  lookup :=
    { categoryParent := []
      getDocumentCategoryID := fun _ _ => Except.ok none
      getUserRoleIDs := fun _ uid =>
        if uid == "U" then Except.ok ["RO"] else Except.ok [] }

/-! Helper lemmas shared by the claim theorems. -/

/-- A direct check either denies, or returns the allowing result built from
a tuple the store found, whose relation grants the requested permission. -/
theorem checkDirectPermission_spec (e : Engine) (now : Nat) (check : CheckContext)
    (st : SubjectType) (sid : String) :
    (e.checkDirectPermission now check st sid).allowed = false ∨
    ∃ t, e.store.hasPermission check.tenantID check.resourceType check.resourceID st sid
        = Except.ok (some t) ∧
      RelationGrantsPermission t.relation check.permission = true ∧
      e.checkDirectPermission now check st sid =
        ⟨true, some t.relation, "direct permission"⟩ := by
  rcases hfind : e.store.hasPermission check.tenantID check.resourceType check.resourceID
      st sid with er | ot
  · left
    simp [Engine.checkDirectPermission, hfind]
  · rcases ot with _ | t
    · left
      simp [Engine.checkDirectPermission, hfind]
    · rcases hexp : t.expiresAt with _ | expiry
      · cases hg : RelationGrantsPermission t.relation check.permission
        · left
          simp [Engine.checkDirectPermission, hfind, hexp, hg]
        · right
          exact ⟨t, rfl, hg, by simp [Engine.checkDirectPermission, hfind, hexp, hg]⟩
      · by_cases hlt : expiry < now
        · left
          simp [Engine.checkDirectPermission, hfind, hexp, hlt]
        · cases hg : RelationGrantsPermission t.relation check.permission
          · left
            simp [Engine.checkDirectPermission, hfind, hexp, hlt, hg]
          · right
            exact ⟨t, rfl, hg, by simp [Engine.checkDirectPermission, hfind, hexp, hlt, hg]⟩

/-- An allowing direct check reports a relation that grants the requested
permission. -/
theorem checkDirectPermission_allowed_grants (e : Engine) (now : Nat)
    (check : CheckContext) (st : SubjectType) (sid : String)
    (h : (e.checkDirectPermission now check st sid).allowed = true) :
    ∃ r, (e.checkDirectPermission now check st sid).relation = some r ∧
      RelationGrantsPermission r check.permission = true := by
  rcases checkDirectPermission_spec e now check st sid with hf | ⟨t, _, hg, heq⟩
  · rw [hf] at h
    cases h
  · exact ⟨t.relation, by rw [heq], hg⟩

/-- The role loop returns only allowing results. -/
theorem checkRolePermissions_some_allowed (e : Engine) (now : Nat)
    (check : CheckContext) :
    ∀ (l : List String) (r : CheckResult),
      e.checkRolePermissions now check l = some r → r.allowed = true := by
  intro l
  induction l with
  | nil =>
    intro r h
    simp [Engine.checkRolePermissions] at h
  | cons roleID rest ih =>
    intro r h
    unfold Engine.checkRolePermissions at h
    by_cases ha : (e.checkDirectPermission now check SubjectType.role roleID).allowed = true
    · simp only [ha, if_true] at h
      cases h
      exact ha
    · simp only [ha, if_false] at h
      exact ih r h

/-- The result the role loop returns is the direct check of one of the
given role ids. -/
theorem checkRolePermissions_some_mem (e : Engine) (now : Nat)
    (check : CheckContext) :
    ∀ (l : List String) (r : CheckResult),
      e.checkRolePermissions now check l = some r →
      ∃ roleID, roleID ∈ l ∧ r = e.checkDirectPermission now check SubjectType.role roleID := by
  intro l
  induction l with
  | nil =>
    intro r h
    simp [Engine.checkRolePermissions] at h
  | cons roleID rest ih =>
    intro r h
    unfold Engine.checkRolePermissions at h
    by_cases ha : (e.checkDirectPermission now check SubjectType.role roleID).allowed = true
    · simp only [ha, if_true] at h
      cases h
      exact ⟨roleID, List.mem_cons_self _ _, rfl⟩
    · simp only [ha, if_false] at h
      rcases ih r h with ⟨rid, hmem, heq⟩
      exact ⟨rid, List.mem_cons_of_mem _ hmem, heq⟩

/-- A hierarchy level that produces a result produces an allowing one whose
relation grants the requested permission. -/
theorem levelResult_some_grants (e : Engine) (now : Nat) (check : CheckContext)
    (roleIDs : List String) (categoryID : String) (r : CheckResult)
    (h : e.levelResult now check roleIDs categoryID = some r) :
    r.allowed = true ∧ ∃ rel, r.relation = some rel ∧
      RelationGrantsPermission rel check.permission = true := by
  unfold Engine.levelResult at h
  by_cases hu : (e.checkDirectPermission now (levelCheck check categoryID)
      SubjectType.user check.userID).allowed = true
  · simp only [hu, if_true] at h
    cases h
    rcases checkDirectPermission_allowed_grants e now (levelCheck check categoryID)
        SubjectType.user check.userID hu with ⟨rel, hrel, hg⟩
    exact ⟨rfl, rel, hrel, hg⟩
  · simp only [hu, if_false] at h
    rcases hrole : e.checkRolePermissions now (levelCheck check categoryID) roleIDs with
      _ | roleResult
    · rw [hrole] at h
      by_cases ht : (e.checkDirectPermission now (levelCheck check categoryID)
          SubjectType.tenant "all").allowed = true
      · simp only [ht, if_true] at h
        cases h
        rcases checkDirectPermission_allowed_grants e now (levelCheck check categoryID)
            SubjectType.tenant "all" ht with ⟨rel, hrel, hg⟩
        exact ⟨rfl, rel, hrel, hg⟩
      · simp only [ht, if_false] at h
        cases h
    · rw [hrole] at h
      cases h
      have hall := checkRolePermissions_some_allowed e now (levelCheck check categoryID)
        roleIDs roleResult hrole
      rcases checkRolePermissions_some_mem e now (levelCheck check categoryID)
          roleIDs roleResult hrole with ⟨rid, _, heq⟩
      have hall2 : (e.checkDirectPermission now (levelCheck check categoryID)
          SubjectType.role rid).allowed = true := by
        rw [← heq]
        exact hall
      rcases checkDirectPermission_allowed_grants e now (levelCheck check categoryID)
          SubjectType.role rid hall2 with ⟨rel, hrel, hg⟩
      refine ⟨hall, rel, ?_, hg⟩
      show roleResult.relation = some rel
      rw [heq]
      exact hrel

/-- An allowing hierarchy walk reports a relation that grants the requested
permission. -/
theorem hierarchyWalk_allowed_grants (e : Engine) (now : Nat) (check : CheckContext)
    (roleIDs : List String) :
    ∀ (fuel : Nat) (categoryID : String) (visited : List String),
      (e.hierarchyWalk now check roleIDs fuel categoryID visited).allowed = true →
      ∃ r, (e.hierarchyWalk now check roleIDs fuel categoryID visited).relation = some r ∧
        RelationGrantsPermission r check.permission = true := by
  intro fuel
  induction fuel with
  | zero =>
    intro categoryID visited h
    simp [Engine.hierarchyWalk] at h
  | succ n ih =>
    intro categoryID visited h
    by_cases hv : categoryID ∈ visited
    · have heq : e.hierarchyWalk now check roleIDs (n + 1) categoryID visited =
          ⟨false, none, "no inherited permission"⟩ := by
        simp [Engine.hierarchyWalk, hv]
      rw [heq] at h
      exact Bool.noConfusion h
    · rcases hl : e.levelResult now check roleIDs categoryID with _ | r
      · rcases hp : e.lookup.getCategoryParentID check.tenantID categoryID with er | op
        · have heq : e.hierarchyWalk now check roleIDs (n + 1) categoryID visited =
              ⟨false, none, "no inherited permission"⟩ := by
            simp [Engine.hierarchyWalk, hv, hl, hp]
          rw [heq] at h
          exact Bool.noConfusion h
        · rcases op with _ | nextParent
          · have heq : e.hierarchyWalk now check roleIDs (n + 1) categoryID visited =
                ⟨false, none, "no inherited permission"⟩ := by
              simp [Engine.hierarchyWalk, hv, hl, hp]
            rw [heq] at h
            exact Bool.noConfusion h
          · have heq : e.hierarchyWalk now check roleIDs (n + 1) categoryID visited =
                e.hierarchyWalk now check roleIDs n nextParent (categoryID :: visited) := by
              simp [Engine.hierarchyWalk, hv, hl, hp]
            rw [heq] at h ⊢
            exact ih nextParent (categoryID :: visited) h
      · have heq : e.hierarchyWalk now check roleIDs (n + 1) categoryID visited = r := by
          simp [Engine.hierarchyWalk, hv, hl]
        rw [heq] at h ⊢
        rcases levelResult_some_grants e now check roleIDs categoryID r hl with
          ⟨_, rel, hrel, hg⟩
        exact ⟨rel, hrel, hg⟩

/-- An allowing hierarchy check reports a relation that grants the requested
permission. -/
theorem checkHierarchy_allowed_grants (e : Engine) (now : Nat) (check : CheckContext)
    (roleIDs : List String)
    (h : (e.checkHierarchy now check roleIDs).allowed = true) :
    ∃ r, (e.checkHierarchy now check roleIDs).relation = some r ∧
      RelationGrantsPermission r check.permission = true := by
  rcases hrt : check.resourceType
  · rcases hd : e.lookup.getDocumentCategoryID check.tenantID check.resourceID with er | oc
    · have heq : e.checkHierarchy now check roleIDs =
          ⟨false, none, "error getting document category"⟩ := by
        simp [Engine.checkHierarchy, hrt, hd]
      rw [heq] at h
      exact Bool.noConfusion h
    · rcases oc with _ | categoryID
      · have heq : e.checkHierarchy now check roleIDs =
            ⟨false, none, "no inherited permission"⟩ := by
          simp [Engine.checkHierarchy, hrt, hd]
        rw [heq] at h
        exact Bool.noConfusion h
      · have heq : e.checkHierarchy now check roleIDs =
            e.hierarchyWalk now check roleIDs (e.lookup.catKeys.length + 1) categoryID [] := by
          simp [Engine.checkHierarchy, hrt, hd]
        rw [heq] at h ⊢
        exact hierarchyWalk_allowed_grants e now check roleIDs _ categoryID [] h
  · rcases hd : e.lookup.getCategoryParentID check.tenantID check.resourceID with er | oc
    · have heq : e.checkHierarchy now check roleIDs =
          ⟨false, none, "error getting category parent"⟩ := by
        simp [Engine.checkHierarchy, hrt, hd]
      rw [heq] at h
      exact Bool.noConfusion h
    · rcases oc with _ | categoryID
      · have heq : e.checkHierarchy now check roleIDs =
            ⟨false, none, "no inherited permission"⟩ := by
          simp [Engine.checkHierarchy, hrt, hd]
        rw [heq] at h
        exact Bool.noConfusion h
      · have heq : e.checkHierarchy now check roleIDs =
            e.hierarchyWalk now check roleIDs (e.lookup.catKeys.length + 1) categoryID [] := by
          simp [Engine.checkHierarchy, hrt, hd]
        rw [heq] at h ⊢
        exact hierarchyWalk_allowed_grants e now check roleIDs _ categoryID [] h

/-- `Check` either allows or returns exactly the final denial. -/
theorem Check_cases (e : Engine) (now : Nat) (check : CheckContext) :
    (e.Check now check).allowed = true ∨
      e.Check now check = ⟨false, none, "no permission found"⟩ := by
  by_cases hu : (e.checkDirectPermission now check SubjectType.user check.userID).allowed = true
  · left
    simp [Engine.Check, hu]
  · rcases hr : e.checkRolePermissions now check (e.roleIDsOf check.tenantID check.userID)
      with _ | roleResult
    · by_cases ht : (e.checkDirectPermission now check SubjectType.tenant "all").allowed = true
      · left
        simp [Engine.Check, hu, hr, ht]
      · by_cases hh : (e.checkHierarchy now check
            (e.roleIDsOf check.tenantID check.userID)).allowed = true
        · left
          simp [Engine.Check, hu, hr, ht, hh]
        · right
          simp [Engine.Check, hu, hr, ht, hh]
    · left
      have hall := checkRolePermissions_some_allowed e now check _ roleResult hr
      simp [Engine.Check, hu, hr, hall]

/-! Claim theorems. -/

/-- C2: for every permission tuple whose expiresAt is set and before the
current time, the direct-tuple check on that tuple fails with reason
"permission expired"; the tuple never allows, whatever its relation. -/
theorem expired_tuple_never_allows (e : Engine) (now : Nat) (check : CheckContext)
    (st : SubjectType) (sid : String) (t : PermissionTuple) (expiry : Nat)
    (hfind : e.store.hasPermission check.tenantID check.resourceType check.resourceID st sid
      = Except.ok (some t))
    (hexp : t.expiresAt = some expiry) (hlt : expiry < now) :
    e.checkDirectPermission now check st sid = ⟨false, none, "permission expired"⟩ := by
  simp [Engine.checkDirectPermission, hfind, hexp, hlt]

/-- Witness for C2: an Owner tuple on document X expired at instant 5 is
checked at instant 10; Owner would otherwise grant Read. -/
theorem expired_tuple_never_allows_witness :
    RelationGrantsPermission Relation.owner Permission.read = true ∧
    expiredEngine.checkDirectPermission 10 expiredCheck SubjectType.user "U" =
      ⟨false, none, "permission expired"⟩ :=
  ⟨rfl, expired_tuple_never_allows expiredEngine 10 expiredCheck SubjectType.user "U"
    ⟨1, 1, ResourceType.document, "X", Relation.owner, SubjectType.user, "U", none, some 5, 0⟩
    5 rfl rfl (by decide)⟩

/-- C4: with Owner on category C1 granted to U, C2 child of C1, document D
in C2, `Check(U, Read, Document, D)` allows with the reason rewritten to
"inherited from parent category" (with "via role" and "via tenant" variants
for role and tenant matches, also at deeper ancestor levels), and `Check`
is the body that computes the role ids once and hands the same list to the
role loop and to the hierarchy walk. -/
theorem inheritance_reason_rewrite :
    (∀ (e : Engine) (now : Nat) (check : CheckContext),
      e.Check now check =
        e.CheckWithRoles now check (e.roleIDsOf check.tenantID check.userID)) ∧
    inheritEngineA.Check 0 inheritCheck =
      ⟨true, some Relation.owner, "inherited from parent category"⟩ ∧
    inheritEngineB.Check 0 inheritCheck =
      ⟨true, some Relation.owner, "inherited from parent category via role"⟩ ∧
    inheritEngineC.Check 0 inheritCheck =
      ⟨true, some Relation.owner, "inherited from parent category via tenant"⟩ ∧
    inheritEngineD.Check 0 inheritCheck =
      ⟨true, some Relation.owner, "inherited from parent category via role"⟩ :=
  ⟨fun _ _ _ => rfl, by decide, by decide, by decide, by decide⟩

/-- C5: a failing `HasPermission` lookup makes the direct sub-check deny
with reason "error checking permission", and a store error on the
user-direct check leaves `Check` equal to the evaluation from step 2 on
(roles, tenant, hierarchy), so the sibling branches still run. -/
theorem store_error_fail_closed (e : Engine) (now : Nat) (check : CheckContext) :
    (∀ st sid,
      e.store.hasPermission check.tenantID check.resourceType check.resourceID st sid
        = Except.error () →
      e.checkDirectPermission now check st sid =
        ⟨false, none, "error checking permission"⟩) ∧
    (e.store.hasPermission check.tenantID check.resourceType check.resourceID
        SubjectType.user check.userID = Except.error () →
      e.Check now check =
        e.checkFromRoles now check (e.roleIDsOf check.tenantID check.userID)) := by
  constructor
  · intro st sid h
    simp [Engine.checkDirectPermission, h]
  · intro h
    have hu : e.checkDirectPermission now check SubjectType.user check.userID =
        ⟨false, none, "error checking permission"⟩ := by
      simp [Engine.checkDirectPermission, h]
    simp [Engine.Check, Engine.checkFromRoles, hu]

/-- Witness for C5: a store erroring on every user-subject query; the
user-direct sub-check denies with the error reason, while the role branch
still finds role R1's Owner tuple and allows. -/
theorem store_error_fail_closed_witness :
    errUserEngine.checkDirectPermission 0 errCheck SubjectType.user "U" =
      ⟨false, none, "error checking permission"⟩ ∧
    errUserEngine.Check 0 errCheck = ⟨true, some Relation.owner, "direct permission"⟩ := by
  have h := store_error_fail_closed errUserEngine 0 errCheck
  refine ⟨h.1 SubjectType.user "U" rfl, ?_⟩
  rw [h.2 rfl]
  decide

/-- C6: when every port call made during the check fails — the behaviour
under a cancelled or deadline-exceeded context — `Check` returns a denial,
never an allow. -/
theorem all_ports_error_denies (e : Engine) (now : Nat) (check : CheckContext)
    (hstore : ∀ tid rt rid st sid, e.store.hasPermission tid rt rid st sid = Except.error ())
    (hroles : ∀ tid uid, e.lookup.getUserRoleIDs tid uid = Except.error ())
    (hdoc : ∀ tid did, e.lookup.getDocumentCategoryID tid did = Except.error ())
    (hpar : e.lookup.getCategoryParentID check.tenantID check.resourceID = Except.error ()) :
    (e.Check now check).allowed = false := by
  have hdir : ∀ st sid, e.checkDirectPermission now check st sid =
      ⟨false, none, "error checking permission"⟩ := by
    intro st sid
    simp [Engine.checkDirectPermission, hstore]
  have hrids : e.roleIDsOf check.tenantID check.userID = [] := by
    simp [Engine.roleIDsOf, hroles]
  have hh : (e.checkHierarchy now check
      (e.roleIDsOf check.tenantID check.userID)).allowed = false := by
    rcases hrt : check.resourceType
    · simp [Engine.checkHierarchy, hrt, hdoc]
    · simp [Engine.checkHierarchy, hrt, hpar]
  have hu : (e.checkDirectPermission now check SubjectType.user check.userID).allowed
      = false := by
    rw [hdir]
  have hr : e.checkRolePermissions now check (e.roleIDsOf check.tenantID check.userID)
      = none := by
    rw [hrids]
    rfl
  have ht : (e.checkDirectPermission now check SubjectType.tenant "all").allowed = false := by
    rw [hdir]
  simp [Engine.Check, hu, hr, ht, hh]

/-- Witness for C6: an engine all of whose port operations fail denies the
check of user U reading category X. -/
theorem all_ports_error_denies_witness :
    (allErrEngine.Check 0 allErrCheck).allowed = false :=
  all_ports_error_denies allErrEngine 0 allErrCheck
    (fun _ _ _ _ _ => rfl) (fun _ _ => rfl) (fun _ _ => rfl) rfl

/-- C9: every denying result `Check` returns carries the reason
"no permission found"; the internal sub-check denial reasons are never
surfaced, because only allowing sub-results are propagated out. -/
theorem Check_denies_with_uniform_reason (e : Engine) (now : Nat) (check : CheckContext)
    (h : (e.Check now check).allowed = false) :
    (e.Check now check).reason = "no permission found" := by
  rcases Check_cases e now check with ha | hd
  · rw [ha] at h
    exact Bool.noConfusion h
  · rw [hd]

/-- Witness for C9: the empty engine denies and reports exactly
"no permission found". -/
theorem Check_denies_with_uniform_reason_witness :
    (emptyEngine.Check 0 cyclicCheck).reason = "no permission found" :=
  Check_denies_with_uniform_reason emptyEngine 0 cyclicCheck (by decide)

/-- C10: whenever `Check` allows, the result's relation is present and that
relation grants the requested permission according to the grants table; the
invariant holds on every allowing path, the hierarchy walk included. -/
theorem Check_allowed_relation_grants (e : Engine) (now : Nat) (check : CheckContext)
    (h : (e.Check now check).allowed = true) :
    ∃ r, (e.Check now check).relation = some r ∧
      RelationGrantsPermission r check.permission = true := by
  by_cases hu : (e.checkDirectPermission now check SubjectType.user check.userID).allowed = true
  · have heq : e.Check now check =
        e.checkDirectPermission now check SubjectType.user check.userID := by
      simp [Engine.Check, hu]
    rw [heq]
    exact checkDirectPermission_allowed_grants e now check SubjectType.user check.userID hu
  · rcases hr : e.checkRolePermissions now check (e.roleIDsOf check.tenantID check.userID)
      with _ | roleResult
    · by_cases ht : (e.checkDirectPermission now check SubjectType.tenant "all").allowed = true
      · have heq : e.Check now check =
            e.checkDirectPermission now check SubjectType.tenant "all" := by
          simp [Engine.Check, hu, hr, ht]
        rw [heq]
        exact checkDirectPermission_allowed_grants e now check SubjectType.tenant "all" ht
      · by_cases hh : (e.checkHierarchy now check
            (e.roleIDsOf check.tenantID check.userID)).allowed = true
        · have heq : e.Check now check =
              e.checkHierarchy now check (e.roleIDsOf check.tenantID check.userID) := by
            simp [Engine.Check, hu, hr, ht, hh]
          rw [heq]
          exact checkHierarchy_allowed_grants e now check _ hh
        · have heq : e.Check now check = ⟨false, none, "no permission found"⟩ := by
            simp [Engine.Check, hu, hr, ht, hh]
          rw [heq] at h
          exact Bool.noConfusion h
    · have heq : e.Check now check = roleResult := by
        simp [Engine.Check, hu, hr]
      rw [heq]
      have hall := checkRolePermissions_some_allowed e now check _ roleResult hr
      rcases checkRolePermissions_some_mem e now check _ roleResult hr with ⟨rid, _, hres⟩
      rw [hres] at hall ⊢
      exact checkDirectPermission_allowed_grants e now check SubjectType.role rid hall

/-- Witness for C10: the Editor tuple on document X lets U read, and the
reported relation grants Read. -/
theorem Check_allowed_relation_grants_witness :
    ∃ r, (effEngine.Check 0 effCheck).relation = some r ∧
      RelationGrantsPermission r effCheck.permission = true :=
  Check_allowed_relation_grants effEngine 0 effCheck (by decide)

/-- The role segment of the candidate list behaves as the role loop: the
first allowing mapped result, else the rest of the candidates. -/
theorem firstAllowing_roles (e : Engine) (now : Nat) (check : CheckContext) :
    ∀ (l : List String) (rest : List CheckResult) (fallback : CheckResult),
      firstAllowing
        (l.map (fun roleID => e.checkDirectPermission now check SubjectType.role roleID)
          ++ rest) fallback =
        (match e.checkRolePermissions now check l with
         | some r => r
         | none => firstAllowing rest fallback) := by
  intro l
  induction l with
  | nil =>
    intro rest fallback
    rfl
  | cons roleID restIDs ih =>
    intro rest fallback
    by_cases ha : (e.checkDirectPermission now check SubjectType.role roleID).allowed = true
    · simp [firstAllowing, Engine.checkRolePermissions, ha]
    · simp [firstAllowing, Engine.checkRolePermissions, ha, ih rest fallback]

/-- C1: `Check` evaluates candidate grants in strict order — direct user
tuple, a direct tuple per role id in lookup order, the tenant wildcard
tuple with subject id "all", then hierarchy inheritance — returning the
first allowing result, and `{allowed := false, reason := "no permission
found"}` when no step allows. -/
theorem Check_strict_order (e : Engine) (now : Nat) (check : CheckContext) :
    e.Check now check =
      firstAllowing (e.checkCandidates now check) ⟨false, none, "no permission found"⟩ := by
  have hroles := firstAllowing_roles e now check (e.roleIDsOf check.tenantID check.userID)
    [e.checkDirectPermission now check SubjectType.tenant "all",
     e.checkHierarchy now check (e.roleIDsOf check.tenantID check.userID)]
    ⟨false, none, "no permission found"⟩
  by_cases hu : (e.checkDirectPermission now check SubjectType.user check.userID).allowed = true
  · simp [Engine.Check, Engine.checkCandidates, firstAllowing, hu]
  · rcases hr : e.checkRolePermissions now check (e.roleIDsOf check.tenantID check.userID)
      with _ | roleResult
    · rw [hr] at hroles
      by_cases ht : (e.checkDirectPermission now check SubjectType.tenant "all").allowed = true
      · simp [Engine.Check, Engine.checkCandidates, firstAllowing, hu, hroles, ht, hr]
      · by_cases hh : (e.checkHierarchy now check
            (e.roleIDsOf check.tenantID check.userID)).allowed = true
        · simp [Engine.Check, Engine.checkCandidates, firstAllowing, hu, hroles, ht, hh, hr]
        · simp [Engine.Check, Engine.checkCandidates, firstAllowing, hu, hroles, ht, hh, hr]
    · rw [hr] at hroles
      simp [Engine.Check, Engine.checkCandidates, firstAllowing, hu, hroles, hr]

/-- The permission list accumulated by the `GetEffectivePermissions` loop is
the filter of the probed permissions by "Check allowed". -/
theorem foldl_effectiveStep_fst (e : Engine) (now : Nat) (check : CheckContext) :
    ∀ (l : List Permission) (acc : List Permission × Relation),
      (l.foldl (e.effectiveStep now check) acc).1 =
        acc.1 ++ l.filter (fun p => (e.Check now { check with permission := p }).allowed) := by
  intro l
  induction l with
  | nil =>
    intro acc
    simp
  | cons p rest ih =>
    intro acc
    rw [List.foldl_cons, ih]
    by_cases ha : (e.Check now { check with permission := p }).allowed = true
    · rcases hrel : (e.Check now { check with permission := p }).relation with _ | r
      · simp [Engine.effectiveStep, ha, hrel, List.filter_cons]
      · simp [Engine.effectiveStep, ha, hrel, List.filter_cons]
    · simp [Engine.effectiveStep, ha, List.filter_cons]

/-- The relation accumulated by the `GetEffectivePermissions` loop is the
`maxRelation` fold of the relations reported by the allowing checks. -/
theorem foldl_effectiveStep_snd (e : Engine) (now : Nat) (check : CheckContext) :
    ∀ (l : List Permission) (acc : List Permission × Relation),
      (l.foldl (e.effectiveStep now check) acc).2 =
        (e.reportedRelations now check l).foldl maxRelation acc.2 := by
  intro l
  induction l with
  | nil =>
    intro acc
    simp [Engine.reportedRelations]
  | cons p rest ih =>
    intro acc
    rw [List.foldl_cons, ih]
    by_cases ha : (e.Check now { check with permission := p }).allowed = true
    · rcases hrel : (e.Check now { check with permission := p }).relation with _ | r
      · simp [Engine.effectiveStep, Engine.reportedRelations, List.filterMap_cons, ha, hrel]
      · simp [Engine.effectiveStep, Engine.reportedRelations, List.filterMap_cons,
          maxRelation, ha, hrel]
    · simp [Engine.effectiveStep, Engine.reportedRelations, List.filterMap_cons, ha]

/-- The `maxRelation` fold never ranks below its start value. -/
theorem foldl_maxRelation_rank_ge_init :
    ∀ (rs : List Relation) (h : Relation),
      relationRank h ≤ relationRank (rs.foldl maxRelation h) := by
  intro rs
  induction rs with
  | nil =>
    intro h
    simp
  | cons r rest ih =>
    intro h
    rw [List.foldl_cons]
    refine le_trans ?_ (ih (maxRelation h r))
    unfold maxRelation IsRelationAtLeast
    by_cases hle : relationRank h ≤ relationRank r
    · simp [hle]
    · simp [hle]

/-- The `maxRelation` fold ranks at least as high as every list element. -/
theorem foldl_maxRelation_rank_ge_mem :
    ∀ (rs : List Relation) (h r : Relation), r ∈ rs →
      relationRank r ≤ relationRank (rs.foldl maxRelation h) := by
  intro rs
  induction rs with
  | nil =>
    intro h r hmem
    cases hmem
  | cons a rest ih =>
    intro h r hmem
    rw [List.foldl_cons]
    rcases List.mem_cons.mp hmem with heq | hmem2
    · subst heq
      refine le_trans ?_ (foldl_maxRelation_rank_ge_init rest (maxRelation h r))
      unfold maxRelation IsRelationAtLeast
      by_cases hle : relationRank h ≤ relationRank r
      · simp [hle]
      · simp [hle]
        omega
    · exact ih (maxRelation h a) r hmem2

/-- The `maxRelation` fold returns its start value or a list element. -/
theorem foldl_maxRelation_attained :
    ∀ (rs : List Relation) (h : Relation),
      rs.foldl maxRelation h = h ∨ rs.foldl maxRelation h ∈ rs := by
  intro rs
  induction rs with
  | nil =>
    intro h
    exact Or.inl rfl
  | cons a rest ih =>
    intro h
    rw [List.foldl_cons]
    have hstep : maxRelation h a = h ∨ maxRelation h a = a := by
      unfold maxRelation
      by_cases hle : IsRelationAtLeast a h = true
      · simp [hle]
      · simp [hle]
    rcases ih (maxRelation h a) with heq | hmem
    · rw [heq]
      rcases hstep with h1 | h1
      · rw [h1]
        exact Or.inl rfl
      · rw [h1]
        exact Or.inr (List.mem_cons_self a rest)
    · exact Or.inr (List.mem_cons_of_mem a hmem)

/-- C7: `GetEffectivePermissions` probes `Check` once per permission in the
fixed order Read, Write, Delete, Share, Download; it returns exactly the
permissions whose check allowed, and a relation that is the running
`maxRelation` fold of the reported relations — it ranks at least as high as
every reported relation, is either `unspecified` or itself reported, and is
`unspecified` when no permission is allowed. -/
theorem GetEffectivePermissions_spec (e : Engine) (now : Nat) (check : CheckContext) :
    (e.GetEffectivePermissions now check).1 =
      allPermissions.filter (fun p => (e.Check now { check with permission := p }).allowed) ∧
    (e.GetEffectivePermissions now check).2 =
      (e.reportedRelations now check allPermissions).foldl maxRelation Relation.unspecified ∧
    (∀ r, r ∈ e.reportedRelations now check allPermissions →
      IsRelationAtLeast (e.GetEffectivePermissions now check).2 r = true) ∧
    ((e.GetEffectivePermissions now check).2 = Relation.unspecified ∨
      (e.GetEffectivePermissions now check).2 ∈
        e.reportedRelations now check allPermissions) ∧
    ((∀ p, (e.Check now { check with permission := p }).allowed = false) →
      (e.GetEffectivePermissions now check).2 = Relation.unspecified) := by
  have h1 : (e.GetEffectivePermissions now check).1 =
      allPermissions.filter (fun p => (e.Check now { check with permission := p }).allowed) := by
    rw [Engine.GetEffectivePermissions, foldl_effectiveStep_fst]
    simp
  have h2 : (e.GetEffectivePermissions now check).2 =
      (e.reportedRelations now check allPermissions).foldl maxRelation
        Relation.unspecified := by
    rw [Engine.GetEffectivePermissions, foldl_effectiveStep_snd]
  refine ⟨h1, h2, ?_, ?_, ?_⟩
  · intro r hmem
    rw [h2]
    have := foldl_maxRelation_rank_ge_mem (e.reportedRelations now check allPermissions)
      Relation.unspecified r hmem
    simp [IsRelationAtLeast]
    exact this
  · rw [h2]
    exact foldl_maxRelation_attained _ _
  · intro hall
    have hrep : e.reportedRelations now check allPermissions = [] := by
      simp [Engine.reportedRelations, allPermissions, hall]
    rw [h2, hrep]
    rfl

/-- Witness for C7: with an Editor tuple on X for U the returned relation
ranks at least Editor; with no tuples at all it is `unspecified`. -/
theorem GetEffectivePermissions_spec_witness :
    IsRelationAtLeast (effEngine.GetEffectivePermissions 0 effCheck).2 Relation.editor
      = true ∧
    (emptyEngine.GetEffectivePermissions 0 effCheck).2 = Relation.unspecified :=
  ⟨(GetEffectivePermissions_spec effEngine 0 effCheck).2.2.1 Relation.editor (by decide),
   (GetEffectivePermissions_spec emptyEngine 0 effCheck).2.2.2.2
     (fun p => by cases p <;> rfl)⟩

/-- Membership in the set after one `insertUnique`. -/
theorem mem_insertUnique (acc : List String) (x a : String) :
    a ∈ insertUnique acc x ↔ a ∈ acc ∨ a = x := by
  unfold insertUnique
  by_cases hc : x ∈ acc
  · simp only [if_pos hc]
    constructor
    · exact Or.inl
    · rintro (h | rfl)
      · exact h
      · exact hc
  · simp only [if_neg hc, List.mem_append, List.mem_singleton]

/-- `insertUnique` keeps the accumulator duplicate-free. -/
theorem nodup_insertUnique (acc : List String) (x : String) (h : acc.Nodup) :
    (insertUnique acc x).Nodup := by
  unfold insertUnique
  by_cases hc : x ∈ acc
  · simp only [if_pos hc]
    exact h
  · simp only [if_neg hc]
    simp [List.nodup_append, h, hc]

/-- Membership after folding a whole listing into the set. -/
theorem mem_foldl_insertUnique :
    ∀ (xs acc : List String) (a : String),
      a ∈ xs.foldl insertUnique acc ↔ a ∈ acc ∨ a ∈ xs := by
  intro xs
  induction xs with
  | nil =>
    intro acc a
    simp
  | cons x rest ih =>
    intro acc a
    rw [List.foldl_cons, ih, mem_insertUnique]
    constructor
    · rintro ((h | rfl) | h)
      · exact Or.inl h
      · exact Or.inr (List.mem_cons_self _ _)
      · exact Or.inr (List.mem_cons_of_mem _ h)
    · rintro (h | h)
      · exact Or.inl (Or.inl h)
      · rcases List.mem_cons.mp h with rfl | h2
        · exact Or.inl (Or.inr rfl)
        · exact Or.inr h2

/-- Folding a listing into a duplicate-free set keeps it duplicate-free. -/
theorem nodup_foldl_insertUnique :
    ∀ (xs acc : List String), acc.Nodup → (xs.foldl insertUnique acc).Nodup := by
  intro xs
  induction xs with
  | nil =>
    intro acc h
    exact h
  | cons x rest ih =>
    intro acc h
    rw [List.foldl_cons]
    exact ih _ (nodup_insertUnique acc x h)

/-- Membership after the per-role phase: the accumulator plus every id some
successfully listed role contributes. -/
theorem mem_foldl_roleListStep (e : Engine) (tenantID : Nat) (resourceType : ResourceType) :
    ∀ (roleIDs : List String) (acc : List String) (a : String),
      a ∈ roleIDs.foldl (e.roleListStep tenantID resourceType) acc ↔
        a ∈ acc ∨ ∃ roleID, roleID ∈ roleIDs ∧ ∃ rs,
          e.store.listResourcesBySubject tenantID SubjectType.role roleID resourceType =
            Except.ok rs ∧ a ∈ rs := by
  intro roleIDs
  induction roleIDs with
  | nil =>
    intro acc a
    simp
  | cons rid rest ih =>
    intro acc a
    rw [List.foldl_cons, ih]
    rcases hcall : e.store.listResourcesBySubject tenantID SubjectType.role rid resourceType
      with er | rs
    · have hstep : e.roleListStep tenantID resourceType acc rid = acc := by
        simp [Engine.roleListStep, hcall]
      rw [hstep]
      constructor
      · rintro (h | ⟨roleID, hmem, hex⟩)
        · exact Or.inl h
        · exact Or.inr ⟨roleID, List.mem_cons_of_mem _ hmem, hex⟩
      · rintro (h | ⟨roleID, hmem, rs2, hok, hmem2⟩)
        · exact Or.inl h
        · rcases List.mem_cons.mp hmem with rfl | hmem3
          · rw [hcall] at hok
            cases hok
          · exact Or.inr ⟨roleID, hmem3, rs2, hok, hmem2⟩
    · have hstep : e.roleListStep tenantID resourceType acc rid = rs.foldl insertUnique acc := by
        simp [Engine.roleListStep, hcall]
      rw [hstep, mem_foldl_insertUnique]
      constructor
      · rintro ((h | h) | ⟨roleID, hmem, hex⟩)
        · exact Or.inl h
        · exact Or.inr ⟨rid, List.mem_cons_self _ _, rs, hcall, h⟩
        · exact Or.inr ⟨roleID, List.mem_cons_of_mem _ hmem, hex⟩
      · rintro (h | ⟨roleID, hmem, rs2, hok, hmem2⟩)
        · exact Or.inl (Or.inl h)
        · rcases List.mem_cons.mp hmem with rfl | hmem3
          · rw [hcall] at hok
            cases hok
            exact Or.inl (Or.inr hmem2)
          · exact Or.inr ⟨roleID, hmem3, rs2, hok, hmem2⟩

/-- The per-role phase keeps the set duplicate-free. -/
theorem nodup_foldl_roleListStep (e : Engine) (tenantID : Nat) (resourceType : ResourceType) :
    ∀ (roleIDs : List String) (acc : List String), acc.Nodup →
      (roleIDs.foldl (e.roleListStep tenantID resourceType) acc).Nodup := by
  intro roleIDs
  induction roleIDs with
  | nil =>
    intro acc h
    exact h
  | cons rid rest ih =>
    intro acc h
    rw [List.foldl_cons]
    refine ih _ ?_
    unfold Engine.roleListStep
    rcases e.store.listResourcesBySubject tenantID SubjectType.role rid resourceType
      with er | rs
    · exact h
    · exact nodup_foldl_insertUnique rs acc h

/-- C8: `ListAccessibleResources` is permission-blind, treats a failed role
lookup as "no roles", and — whenever the user-direct listing succeeds —
returns a duplicate-free list containing exactly the ids listed for the
user, for some role of the user, or for the tenant wildcard "all". -/
theorem ListAccessibleResources_spec (e : Engine) (tenantID : Nat) (userID : String)
    (resourceType : ResourceType) (permission : Permission) :
    (∀ permission2, e.ListAccessibleResources tenantID userID resourceType permission =
      e.ListAccessibleResources tenantID userID resourceType permission2) ∧
    (e.lookup.getUserRoleIDs tenantID userID = Except.error () →
      e.roleIDsOf tenantID userID = []) ∧
    (∀ us, e.store.listResourcesBySubject tenantID SubjectType.user userID resourceType =
        Except.ok us →
      ∃ l, e.ListAccessibleResources tenantID userID resourceType permission =
          Except.ok l ∧
        l.Nodup ∧
        (∀ a, a ∈ l ↔ a ∈ us ∨
          (∃ roleID, roleID ∈ e.roleIDsOf tenantID userID ∧ ∃ rs,
            e.store.listResourcesBySubject tenantID SubjectType.role roleID resourceType =
              Except.ok rs ∧ a ∈ rs) ∨
          (∃ ts, e.store.listResourcesBySubject tenantID SubjectType.tenant "all"
              resourceType = Except.ok ts ∧ a ∈ ts))) := by
  refine ⟨fun _ => rfl, ?_, ?_⟩
  · intro h
    simp [Engine.roleIDsOf, h]
  · intro us hus
    have hacc2nodup : ((e.roleIDsOf tenantID userID).foldl
        (e.roleListStep tenantID resourceType) (us.foldl insertUnique [])).Nodup :=
      nodup_foldl_roleListStep e tenantID resourceType _ _
        (nodup_foldl_insertUnique us [] List.nodup_nil)
    have hacc2mem : ∀ a, a ∈ (e.roleIDsOf tenantID userID).foldl
        (e.roleListStep tenantID resourceType) (us.foldl insertUnique []) ↔
        a ∈ us ∨ ∃ roleID, roleID ∈ e.roleIDsOf tenantID userID ∧ ∃ rs,
          e.store.listResourcesBySubject tenantID SubjectType.role roleID resourceType =
            Except.ok rs ∧ a ∈ rs := by
      intro a
      rw [mem_foldl_roleListStep, mem_foldl_insertUnique]
      simp
    rcases htc : e.store.listResourcesBySubject tenantID SubjectType.tenant "all"
        resourceType with er | ts
    · refine ⟨_, by simp [Engine.ListAccessibleResources, hus, htc], hacc2nodup, ?_⟩
      intro a
      rw [hacc2mem a]
      constructor
      · rintro (h | h)
        · exact Or.inl h
        · exact Or.inr (Or.inl h)
      · rintro (h | h | ⟨ts2, hok, hmem⟩)
        · exact Or.inl h
        · exact Or.inr h
        · exact Except.noConfusion hok
    · refine ⟨ts.foldl insertUnique ((e.roleIDsOf tenantID userID).foldl
          (e.roleListStep tenantID resourceType) (us.foldl insertUnique [])),
        by simp [Engine.ListAccessibleResources, hus, htc], ?_, ?_⟩
      · exact nodup_foldl_insertUnique ts _ hacc2nodup
      · intro a
        rw [mem_foldl_insertUnique, hacc2mem a]
        constructor
        · rintro ((h | h) | h)
          · exact Or.inl h
          · exact Or.inr (Or.inl h)
          · exact Or.inr (Or.inr ⟨ts, rfl, h⟩)
        · rintro (h | h | ⟨ts2, hok, hmem⟩)
          · exact Or.inl (Or.inl h)
          · exact Or.inl (Or.inr h)
          · cases hok
            exact Or.inr hmem

/-- Witness for C8: user listing (R1, Rd), role RO listing (R2, Rd), tenant
listing (R3); the result is a duplicate-free list with exactly the union. -/
theorem ListAccessibleResources_spec_witness :
    ∃ l, listEngine.ListAccessibleResources 1 "U" ResourceType.document Permission.read =
        Except.ok l ∧
      l.Nodup ∧
      (∀ a, a ∈ l ↔ a ∈ ["R1", "Rd"] ∨
        (∃ roleID, roleID ∈ listEngine.roleIDsOf 1 "U" ∧ ∃ rs,
          listEngine.store.listResourcesBySubject 1 SubjectType.role roleID
            ResourceType.document = Except.ok rs ∧ a ∈ rs) ∨
        (∃ ts, listEngine.store.listResourcesBySubject 1 SubjectType.tenant "all"
            ResourceType.document = Except.ok ts ∧ a ∈ ts)) :=
  (ListAccessibleResources_spec listEngine 1 "U" ResourceType.document Permission.read).2.2
    ["R1", "Rd"] rfl

/-- A category from which the walk can step upward is a key of the parent
table. -/
theorem getCategoryParentID_some_key (l : ResourceLookup) (tenantID : Nat)
    (categoryID nextParent : String)
    (h : l.getCategoryParentID tenantID categoryID = Except.ok (some nextParent)) :
    categoryID ∈ l.catKeys := by
  unfold ResourceLookup.getCategoryParentID at h
  rcases hfind : l.categoryParent.find?
      (fun kv => kv.1.1 == tenantID && kv.1.2 == categoryID) with _ | kv
  · rw [hfind] at h
    simp at h
  · have hmem := List.mem_of_find?_eq_some hfind
    have hpred := List.find?_some hfind
    simp at hpred
    exact List.mem_map.mpr ⟨kv, hmem, hpred.2⟩

/-- Filtering by a strictly stronger predicate that rejects a kept element
of the list yields a strictly shorter list. -/
theorem length_filter_lt_of_strict (p q : String → Bool) :
    ∀ (keys : List String) (c : String),
      (∀ k, q k = true → p k = true) → q c = false → p c = true → c ∈ keys →
      (keys.filter q).length < (keys.filter p).length := by
  intro keys
  induction keys with
  | nil =>
    intro c _ _ _ hmem
    cases hmem
  | cons k rest ih =>
    intro c himp hqc hpc hmem
    have hle : (rest.filter q).length ≤ (rest.filter p).length :=
      List.Sublist.length_le (List.monotone_filter_right rest himp)
    rcases List.mem_cons.mp hmem with rfl | hmem2
    · rw [List.filter_cons, List.filter_cons, hqc, hpc]
      simp only [Bool.false_eq_true, if_false, if_true, List.length_cons]
      omega
    · rw [List.filter_cons, List.filter_cons]
      cases hq : q k
      · cases hp : p k
        · simp only [Bool.false_eq_true, if_false]
          exact ih c himp hqc hpc hmem2
        · simp only [Bool.false_eq_true, if_false, if_true, List.length_cons]
          have := ih c himp hqc hpc hmem2
          omega
      · have hp : p k = true := himp k hq
        rw [hp]
        simp only [if_true, List.length_cons]
        have := ih c himp hqc hpc hmem2
        omega

/-- Visiting a not-yet-visited parent-table key strictly shrinks the count
of fresh keys. -/
theorem freshKeyCount_lt (l : ResourceLookup) (visited : List String) (c : String)
    (hkey : c ∈ l.catKeys) (hvis : c ∉ visited) :
    l.freshKeyCount (c :: visited) < l.freshKeyCount visited := by
  unfold ResourceLookup.freshKeyCount
  refine length_filter_lt_of_strict _ _ l.catKeys c ?_ ?_ ?_ hkey
  · intro k hq
    simp only [Bool.not_eq_true', List.contains_cons, Bool.or_eq_false_iff] at hq
    simp only [Bool.not_eq_true']
    exact hq.2
  · simp
  · simp [hvis]

/-- The hierarchy walk reaches a loop exit before the fuel runs out: its
result is the same under any two fuel values exceeding the fresh-key count,
which is how the termination of the Go loop is expressed on finite data. -/
theorem hierarchyWalk_fuel_congr (e : Engine) (now : Nat) (check : CheckContext)
    (roleIDs : List String) :
    ∀ (fuel₁ fuel₂ : Nat) (categoryID : String) (visited : List String),
      e.lookup.freshKeyCount visited < fuel₁ →
      e.lookup.freshKeyCount visited < fuel₂ →
      e.hierarchyWalk now check roleIDs fuel₁ categoryID visited =
        e.hierarchyWalk now check roleIDs fuel₂ categoryID visited := by
  intro fuel₁
  induction fuel₁ with
  | zero =>
    intro fuel₂ c visited h1 h2
    omega
  | succ n ih =>
    intro fuel₂ c visited h1 h2
    rcases fuel₂ with _ | m
    · omega
    · by_cases hv : c ∈ visited
      · have e1 : e.hierarchyWalk now check roleIDs (n + 1) c visited =
            ⟨false, none, "no inherited permission"⟩ := by
          simp [Engine.hierarchyWalk, hv]
        have e2 : e.hierarchyWalk now check roleIDs (m + 1) c visited =
            ⟨false, none, "no inherited permission"⟩ := by
          simp [Engine.hierarchyWalk, hv]
        rw [e1, e2]
      · rcases hl : e.levelResult now check roleIDs c with _ | r
        · rcases hp : e.lookup.getCategoryParentID check.tenantID c with er | op
          · have e1 : e.hierarchyWalk now check roleIDs (n + 1) c visited =
                ⟨false, none, "no inherited permission"⟩ := by
              simp [Engine.hierarchyWalk, hv, hl, hp]
            have e2 : e.hierarchyWalk now check roleIDs (m + 1) c visited =
                ⟨false, none, "no inherited permission"⟩ := by
              simp [Engine.hierarchyWalk, hv, hl, hp]
            rw [e1, e2]
          · rcases op with _ | nextParent
            · have e1 : e.hierarchyWalk now check roleIDs (n + 1) c visited =
                  ⟨false, none, "no inherited permission"⟩ := by
                simp [Engine.hierarchyWalk, hv, hl, hp]
              have e2 : e.hierarchyWalk now check roleIDs (m + 1) c visited =
                  ⟨false, none, "no inherited permission"⟩ := by
                simp [Engine.hierarchyWalk, hv, hl, hp]
              rw [e1, e2]
            · have e1 : e.hierarchyWalk now check roleIDs (n + 1) c visited =
                  e.hierarchyWalk now check roleIDs n nextParent (c :: visited) := by
                simp [Engine.hierarchyWalk, hv, hl, hp]
              have e2 : e.hierarchyWalk now check roleIDs (m + 1) c visited =
                  e.hierarchyWalk now check roleIDs m nextParent (c :: visited) := by
                simp [Engine.hierarchyWalk, hv, hl, hp]
              rw [e1, e2]
              have hdec := freshKeyCount_lt e.lookup visited c
                (getCategoryParentID_some_key e.lookup check.tenantID c nextParent hp) hv
              exact ih m nextParent (c :: visited) (by omega) (by omega)
        · have e1 : e.hierarchyWalk now check roleIDs (n + 1) c visited = r := by
            simp [Engine.hierarchyWalk, hv, hl]
          have e2 : e.hierarchyWalk now check roleIDs (m + 1) c visited = r := by
            simp [Engine.hierarchyWalk, hv, hl]
          rw [e1, e2]

/-- C3: the upward hierarchy walk terminates — its result is stable under
any fuel beyond the parent-table size, the walk stops as soon as the next
parent id has already been visited, and in the cyclic hierarchy
parent(C1)=C2, parent(C2)=C1 with no tuple anywhere,
`Check(U, Read, Category, C1)` returns allowed=false. -/
theorem hierarchy_walk_terminates :
    (∀ (e : Engine) (now : Nat) (check : CheckContext) (roleIDs : List String)
        (fuel : Nat) (categoryID : String),
      e.lookup.catKeys.length < fuel →
      e.hierarchyWalk now check roleIDs fuel categoryID [] =
        e.hierarchyWalk now check roleIDs (e.lookup.catKeys.length + 1) categoryID []) ∧
    (∀ (e : Engine) (now : Nat) (check : CheckContext) (roleIDs : List String)
        (fuel : Nat) (categoryID : String) (visited : List String),
      categoryID ∈ visited →
      e.hierarchyWalk now check roleIDs (fuel + 1) categoryID visited =
        ⟨false, none, "no inherited permission"⟩) ∧
    cyclicEngine.Check 0 cyclicCheck = ⟨false, none, "no permission found"⟩ := by
  refine ⟨?_, ?_, by decide⟩
  · intro e now check roleIDs fuel categoryID hfuel
    have hfc : e.lookup.freshKeyCount [] = e.lookup.catKeys.length := by
      simp [ResourceLookup.freshKeyCount]
    exact hierarchyWalk_fuel_congr e now check roleIDs fuel (e.lookup.catKeys.length + 1)
      categoryID [] (by omega) (by omega)
  · intro e now check roleIDs fuel categoryID visited hvis
    simp [Engine.hierarchyWalk, hvis]

/-- Witness for C3: on the cyclic engine the walk from C1 gives the same
result with fuel 5 as with the canonical fuel, and the walk stops at once
when C1 has already been visited. -/
theorem hierarchy_walk_terminates_witness :
    cyclicEngine.hierarchyWalk 0 cyclicCheck [] 5 "C1" [] =
      cyclicEngine.hierarchyWalk 0 cyclicCheck []
        (cyclicEngine.lookup.catKeys.length + 1) "C1" [] ∧
    cyclicEngine.hierarchyWalk 0 cyclicCheck [] 1 "C1" ["C1"] =
      ⟨false, none, "no inherited permission"⟩ :=
  ⟨hierarchy_walk_terminates.1 cyclicEngine 0 cyclicCheck [] 5 "C1" (by decide),
   hierarchy_walk_terminates.2.1 cyclicEngine 0 cyclicCheck [] 0 "C1" ["C1"] (by decide)⟩

end Paperless
